import Mathlib

/-!
# Verification of `src/checker.py` (job-board watcher)

A shallow embedding of the single-file job watcher: the entry-level keyword
matcher, the Greenhouse/Lever listing normalization, the recursive Workday
`find_postings` scan, the dedup state loop, the Discord embed builder and
batching loop, and the `main` orchestration with its try/except/finally
error flow.  Python strings are modelled as Lean `String` (both are
sequences of Unicode code points; `str.lower` is modelled by
a per-code-point `Char.toLower` map, which agrees on the data here), and a
Python string-or-None value as `Option String`.  HTTP and filesystem I/O
are modelled as explicit parameters at the exact boundaries where the code
performs them.
-/

/-- Python `a or b` for a string-or-None `a` and a string default `b`:
the result is `a` unless `a` is `None` or `""` (falsy), in which case `b`. -/
def pyOrS : Option String → String → String
  | none, b => b
  | some s, b => if s = "" then b else s

/-- Python `a or b` where both sides are string-or-None values. -/
def pyOrO : Option String → Option String → Option String
  | none, b => b
  | some s, b => if s = "" then b else some s

/-- Python truthiness of a string-or-None value: `None` and `""` are falsy. -/
def pyTruthy : Option String → Bool
  | none => false
  | some s => s != ""

/-- Python `str()` / f-string interpolation of a string-or-None value:
`None` renders as the literal text `"None"`. -/
def pyStrOpt : Option String → String
  | none => "None"
  | some s => s

/-- Python slicing `s[:n]`: the first `n` code points of `s`. -/
def pySliceTo (s : String) (n : Nat) : String := String.mk (s.data.take n)

/-- Does the character list `hay` start with `needle`? -/
def strHeadMatch : List Char → List Char → Bool
  | [], _ => true
  | _ :: _, [] => false
  | n :: ns, h :: hs => n == h && strHeadMatch ns hs

/-- Does the character list `hay` have `needle` as a contiguous sublist?
(`needle = []` always matches, like Python `"" in s`). -/
def strFind (needle : List Char) : List Char → Bool
  | [] => needle.isEmpty
  | h :: hs => strHeadMatch needle (h :: hs) || strFind needle hs

/-- Python `needle in hay` on strings: contiguous-substring containment. -/
def strContains (hay needle : String) : Bool := strFind needle.data hay.data

/-- Python `s.lower()`: lower-case each code point (agrees with
`Char.toLower` on the ASCII data this program compares against). -/
def pyLower (s : String) : String := String.mk (s.data.map Char.toLower)

/-- `KEYWORDS` from `src/checker.py` lines 17-21, verbatim (including the
duplicated `"software engineer i"` and `"graduate"` entries). -/
def KEYWORDS : List String :=
  ["new grad", "graduate", "entry", "fresher", "sde 1", "sde i",
   "software engineer i", "software engineer i", "intern", "graduate",
   "associate software engineer", "early-career", "entry level", "junior"]

/-- `MAX_EMBEDS_PER_REQUEST` from `src/checker.py` line 22. -/
def MAX_EMBEDS_PER_REQUEST : Nat := 6

/-- `matches_entry_level(title, description="")` from `src/checker.py`
lines 46-52: lower-case `title or ""` and `description or ""`, then scan
`KEYWORDS` returning true on the first keyword contained in either string
(the source's for-loop with early `return True` is `List.any`). -/
def matches_entry_level (title : Option String) (description : Option String) : Bool :=
  let t := pyLower (pyOrS title "")
  let d := pyLower (pyOrS description "")
  KEYWORDS.any (fun k => strContains t k || strContains d k)

/-- The matcher as the spec sentence literally reads, for comparison with
the code: true iff the lower-cased *concatenation* of title and description
(each defaulted to `""` when missing) contains some keyword. -/
def matches_entry_level_specform (title : Option String) (description : Option String) : Bool :=
  KEYWORDS.any (fun k => strContains (pyLower (pyOrS title "" ++ pyOrS description "")) k)

/-- Claim C4 (counterexample): the claim says the matcher is true iff the
lower-cased concatenation of title and description contains a keyword, but
the code tests the title and the description separately, so a keyword that
spans the title/description boundary is not matched: on title `"new "` and
description `"grad"` the concatenation contains the keyword `"new grad"`,
yet `matches_entry_level` returns false. -/
theorem matches_entry_level_concat_cex :
    matches_entry_level (some "new ") (some "grad") = false ∧
    matches_entry_level_specform (some "new ") (some "grad") = true := by
  constructor <;> rfl

/-- Claim C4 (amended): `matches_entry_level(title, description)` returns
true iff the lower-cased title (defaulted to `""` when missing) contains a
keyword of the fixed set, or the lower-cased description does — the two
strings are tested separately, never concatenated; in particular
`matches_entry_level "Software Engineer I" ""` is true and
`matches_entry_level "Senior Staff Engineer" ""` is false. -/
theorem matches_entry_level_correct :
    (∀ title description : Option String,
      matches_entry_level title description = true ↔
        ∃ k, k ∈ KEYWORDS ∧
          (strContains (pyLower (pyOrS title "")) k = true ∨
           strContains (pyLower (pyOrS description "")) k = true)) ∧
    matches_entry_level (some "Software Engineer I") (some "") = true ∧
    matches_entry_level (some "Senior Staff Engineer") (some "") = false := by
  refine ⟨?_, rfl, rfl⟩
  intro title description
  simp only [matches_entry_level, List.any_eq_true, Bool.or_eq_true]

/-- Concrete instance of the amended C4 matcher characterization. -/
theorem matches_entry_level_correct_witness :
    ∃ k, k ∈ KEYWORDS ∧
      (strContains (pyLower (pyOrS (some "Software Engineer I") "")) k = true ∨
       strContains (pyLower (pyOrS (some "") "")) k = true) :=
  (matches_entry_level_correct.1 (some "Software Engineer I") (some "")).mp
    matches_entry_level_correct.2.1

/-! ## JSON values and the Workday recursive scan (`find_postings`) -/

/-- JSON values as returned by `requests.Response.json()`: `None`, booleans,
numbers, strings, lists, and dicts (a dict is its key-value pairs in
insertion order). -/
inductive Json where
  | null
  | bool (b : Bool)
  | num (n : Int)
  | str (s : String)
  | arr (items : List Json)
  | obj (fields : List (String × Json))

/-- Python `"k" in d` on a dict given as its key-value pairs. -/
def hasKey (fields : List (String × Json)) (k : String) : Bool :=
  fields.any (fun p => p.1 == k)

/-- The per-item test of the inner loop of `find_postings`
(`src/checker.py` line 185): the item contributes itself when it is a dict
with a `"title"` or `"jobTitle"` key, and nothing otherwise. -/
def titleDictOf : Json → List (List (String × Json))
  | Json.obj fs => if (hasKey fs "title" || hasKey fs "jobTitle") = true then [fs] else []
  | _ => []

/-- The inner `for item in v` loop of `find_postings` (lines 184-186):
collect the qualifying dict elements of a list value.  Note the source does
not recurse into the items of the list. -/
def scanItems : List Json → List (List (String × Json))
  | [] => []
  | item :: rest => titleDictOf item ++ scanItems rest

mutual

/-- `find_postings(obj)` from `src/checker.py` lines 179-192: on a dict,
walk its values — a list value is scanned for qualifying dict elements
(without recursing into them), any other value is searched recursively; on
a list (reachable only when called on a list directly), recurse into each
element; any other JSON value yields nothing. -/
def find_postings : Json → List (List (String × Json))
  | Json.obj fields => findInFields fields
  | Json.arr items => findInList items
  | _ => []

/-- The `for k, v in obj.items()` loop of `find_postings` (lines 182-188). -/
def findInFields : List (String × Json) → List (List (String × Json))
  | [] => []
  | (_, v) :: rest =>
    (match v with
     | Json.arr items => scanItems items
     | _ => find_postings v) ++ findInFields rest

/-- The `for item in obj` loop of the list branch of `find_postings`
(lines 189-191). -/
def findInList : List Json → List (List (String × Json))
  | [] => []
  | item :: rest => find_postings item ++ findInList rest

end

/-- A dict (given by its fields) occurs somewhere in a JSON tree as an
element of a list — the claim's notion of where a posting dict may sit
("occurs as an element of some list anywhere in the JSON tree"). -/
inductive ListedIn : List (String × Json) → Json → Prop where
  | here {fs : List (String × Json)} {items : List Json} :
      Json.obj fs ∈ items → ListedIn fs (Json.arr items)
  | inArr {fs : List (String × Json)} {items : List Json} {it : Json} :
      it ∈ items → ListedIn fs it → ListedIn fs (Json.arr items)
  | inObj {fs fields : List (String × Json)} {k : String} {v : Json} :
      (k, v) ∈ fields → ListedIn fs v → ListedIn fs (Json.obj fields)

theorem titleDictOf_mem {j : Json} {d : List (String × Json)}
    (h : d ∈ titleDictOf j) :
    j = Json.obj d ∧ (hasKey d "title" || hasKey d "jobTitle") = true := by
  cases j with
  | obj fs =>
    simp only [titleDictOf] at h
    split at h
    next hc =>
      simp only [List.mem_singleton] at h
      subst h
      exact ⟨rfl, hc⟩
    next => simp at h
  | null => simp [titleDictOf] at h
  | bool b => simp [titleDictOf] at h
  | num n => simp [titleDictOf] at h
  | str s => simp [titleDictOf] at h
  | arr items => simp [titleDictOf] at h

theorem scanItems_mem {items : List Json} {d : List (String × Json)}
    (h : d ∈ scanItems items) :
    Json.obj d ∈ items ∧ (hasKey d "title" || hasKey d "jobTitle") = true := by
  induction items with
  | nil => simp [scanItems] at h
  | cons item rest ih =>
    simp only [scanItems, List.mem_append] at h
    rcases h with h | h
    · obtain ⟨rfl, hk⟩ := titleDictOf_mem h
      exact ⟨List.mem_cons_self _ _, hk⟩
    · obtain ⟨hm, hk⟩ := ih h
      exact ⟨List.mem_cons_of_mem _ hm, hk⟩

theorem findInFields_mem {fields d : List (String × Json)}
    (h : d ∈ findInFields fields) :
    ∃ k v, (k, v) ∈ fields ∧
      ((∃ items, v = Json.arr items ∧ d ∈ scanItems items) ∨ d ∈ find_postings v) := by
  induction fields with
  | nil => simp [findInFields] at h
  | cons p rest ih =>
    obtain ⟨k, v⟩ := p
    simp only [findInFields, List.mem_append] at h
    rcases h with h | h
    · refine ⟨k, v, List.mem_cons_self _ _, ?_⟩
      cases v with
      | arr items => exact Or.inl ⟨items, rfl, h⟩
      | null => exact Or.inr h
      | bool b => exact Or.inr h
      | num n => exact Or.inr h
      | str s => exact Or.inr h
      | obj fs => exact Or.inr h
    · obtain ⟨k', v', hm, hc⟩ := ih h
      exact ⟨k', v', List.mem_cons_of_mem _ hm, hc⟩

theorem findInList_mem {items : List Json} {d : List (String × Json)}
    (h : d ∈ findInList items) : ∃ it, it ∈ items ∧ d ∈ find_postings it := by
  induction items with
  | nil => simp [findInList] at h
  | cons item rest ih =>
    simp only [findInList, List.mem_append] at h
    rcases h with h | h
    · exact ⟨item, List.mem_cons_self _ _, h⟩
    · obtain ⟨it, hm, hd⟩ := ih h
      exact ⟨it, List.mem_cons_of_mem _ hm, hd⟩

theorem sizeOf_val_lt {k : String} {v : Json} {fields : List (String × Json)}
    (h : (k, v) ∈ fields) : sizeOf v < sizeOf (Json.obj fields) := by
  have h1 : sizeOf (k, v) ≤ sizeOf fields := le_of_lt (List.sizeOf_lt_of_mem h)
  simp only [Prod.mk.sizeOf_spec] at h1
  simp only [Json.obj.sizeOf_spec]
  omega

theorem sizeOf_item_lt {it : Json} {items : List Json} (h : it ∈ items) :
    sizeOf it < sizeOf (Json.arr items) := by
  have h1 := List.sizeOf_lt_of_mem h
  simp only [Json.arr.sizeOf_spec]
  omega

/-- Every dict returned by `find_postings` carries a `title`/`jobTitle` key
and occurs as an element of some list in the tree (strong induction on the
size of the JSON value). -/
theorem find_postings_listed : ∀ (n : Nat) (j : Json), sizeOf j ≤ n →
    ∀ d ∈ find_postings j,
      (hasKey d "title" || hasKey d "jobTitle") = true ∧ ListedIn d j := by
  intro n
  induction n with
  | zero =>
    intro j hj
    exfalso
    cases j <;> simp_all
  | succ n ih =>
    intro j hj d hd
    cases j with
    | obj fields =>
      simp only [find_postings] at hd
      obtain ⟨k, v, hkv, hc⟩ := findInFields_mem hd
      rcases hc with ⟨items, rfl, hscan⟩ | hrec
      · obtain ⟨hm, hk⟩ := scanItems_mem hscan
        exact ⟨hk, ListedIn.inObj hkv (ListedIn.here hm)⟩
      · have hlt : sizeOf v ≤ n := by
          have := sizeOf_val_lt hkv
          simp only [Json.obj.sizeOf_spec] at this hj
          omega
        obtain ⟨hk, hl⟩ := ih v hlt d hrec
        exact ⟨hk, ListedIn.inObj hkv hl⟩
    | arr items =>
      simp only [find_postings] at hd
      obtain ⟨it, hm, hrec⟩ := findInList_mem hd
      have hlt : sizeOf it ≤ n := by
        have := sizeOf_item_lt hm
        simp only [Json.arr.sizeOf_spec] at this hj
        omega
      obtain ⟨hk, hl⟩ := ih it hlt d hrec
      exact ⟨hk, ListedIn.inArr hm hl⟩
    | null => simp [find_postings] at hd
    | bool b => simp [find_postings] at hd
    | num m => simp [find_postings] at hd
    | str s => simp [find_postings] at hd

/-- A dict with a qualifying key inside a list of lists: the claim says
`find_postings` should return it, the code misses it. -/
def nestedListExample : Json :=
  Json.obj [("a", Json.arr [Json.arr [Json.obj [("title", Json.str "x")]]])]

/-- Claim C5 (counterexample): the claim says `find_postings` returns all
dicts with a `"title"`/`"jobTitle"` key occurring as an element of some
list anywhere in the JSON tree, but the code never recurses into the
elements of a list: on `{"a": [[{"title": "x"}]]}` the posting dict is an
element of the inner list, yet `find_postings` returns `[]`. -/
theorem find_postings_missed_nested :
    ListedIn [("title", Json.str "x")] nestedListExample ∧
    find_postings nestedListExample = [] := by
  constructor
  · exact ListedIn.inObj (List.mem_cons_self _ _)
      (ListedIn.inArr (List.mem_cons_self _ _) (ListedIn.here (List.mem_cons_self _ _)))
  · simp [nestedListExample, find_postings, findInFields, findInList, scanItems, titleDictOf]

/-- Claim C5 (amended): `find_postings` is a total function (it cannot
raise), every dict it returns has a `"title"` or `"jobTitle"` key and
occurs as an element of some list in the JSON tree, and on a JSON value in
which no dict with such a key occurs as a list element anywhere it returns
the empty list — but it does not return *all* such dicts: list elements are
not searched recursively, so qualifying dicts nested below a list element
are missed. -/
theorem find_postings_sound :
    ∀ j : Json,
      (∀ d ∈ find_postings j,
        (hasKey d "title" || hasKey d "jobTitle") = true ∧ ListedIn d j) ∧
      ((∀ d : List (String × Json), ListedIn d j →
          (hasKey d "title" || hasKey d "jobTitle") = false) →
        find_postings j = []) := by
  intro j
  constructor
  · intro d hd
    exact find_postings_listed (sizeOf j) j le_rfl d hd
  · intro hnone
    cases hfp : find_postings j with
    | nil => rfl
    | cons d rest =>
      obtain ⟨hk, hl⟩ :=
        find_postings_listed (sizeOf j) j le_rfl d (hfp ▸ List.mem_cons_self d rest)
      rw [hnone d hl] at hk
      exact absurd hk Bool.false_ne_true

/-- Concrete instance of the amended C5 theorem: a bare number holds no
listed posting dict, and `find_postings` returns the empty list on it. -/
theorem find_postings_sound_witness : find_postings (Json.num 3) = [] :=
  (find_postings_sound (Json.num 3)).2 (fun _ hl => nomatch hl)

/-! ## Job records and the provider adapters -/

/-- The common job record a provider adapter appends (`src/checker.py`
lines 114-122 and 145-153): strings throughout, except that `location`,
`url` and `posted` may be `None`. -/
structure Job where
  signature : String
  company : String
  title : String
  location : Option String
  url : Option String
  posted : Option String
  snippet : String
deriving Repr, DecidableEq

/-- The dynamic `location` value of a Greenhouse listing (line 109): either
a dict, whose (possibly missing) `name` entry is read, or a direct
(possibly missing) string value. -/
inductive GhLocation where
  | dictVal (name : Option String)
  | direct (value : Option String)

/-- `j.get("location", {}).get("name") if isinstance(j.get("location"), dict)
else j.get("location")` (line 109). -/
def ghLocationOf : GhLocation → Option String
  | GhLocation.dictVal name => name
  | GhLocation.direct v => v

/-- One element of the `jobs` list of a Greenhouse board response, with the
fields `scrape_greenhouse` reads (lines 106-111).  `id` is the string
rendering of the listing id as interpolated into the fallback URL (`none`
when the key is absent, which an f-string renders as `"None"`). -/
structure GhListing where
  title : Option String
  absolute_url : Option String
  url : Option String
  id : Option String
  location : GhLocation
  content : Option String
  updated_at : Option String
  created_at : Option String
  created : Option String

/-- The fallback chain for a Greenhouse job URL (line 108):
`j.get("absolute_url") or j.get("url") or
f"https://boards.greenhouse.io/{handle}/jobs/{j.get('id')}"`. -/
def ghUrlJob (handle : String) (j : GhListing) : String :=
  pyOrS j.absolute_url
    (pyOrS j.url ("https://boards.greenhouse.io/" ++ handle ++ "/jobs/" ++ pyStrOpt j.id))

/-- The per-listing body of `scrape_greenhouse`'s inner loop (lines
106-122): extract the fields and append a job record exactly when the
entry-level matcher passes. -/
def ghProcessListing (handle : String) (j : GhListing) : Option Job :=
  let title := pyOrS j.title ""
  let url_job := ghUrlJob handle j
  let location := ghLocationOf j.location
  let content := pyOrS j.content ""
  let posted := pyOrO j.updated_at (pyOrO j.created_at j.created)
  if matches_entry_level (some title) (some content) = true then
    some { signature := "greenhouse|" ++ handle ++ "|" ++ title ++ "|" ++ url_job,
           company := handle, title := title, location := location,
           url := some url_job, posted := posted, snippet := pySliceTo content 280 }
  else none

/-- Outcome of one handle's HTTP fetch at the `requests.get` / `r.json()`
boundary: the request raised (network error or timeout), or a response with
a status code and — when the body parsed as JSON of the expected shape —
its typed content (`none` models `r.json()` raising). -/
inductive FetchResult (α : Type) where
  | exn : FetchResult α
  | resp (status : Nat) (body : Option α) : FetchResult α

/-- A Greenhouse board response: its `jobs` list (`data.get("jobs", [])`,
line 106; a missing key defaults to the empty list). -/
structure GhResponse where
  jobs : List GhListing

/-- `scrape_greenhouse(handles)` from lines 91-125, over an explicit fetch
function for the per-handle GET of
`https://api.greenhouse.io/v1/boards/{handle}/jobs`: a raised request, a
non-200 status (the `continue`), or a failed JSON parse (caught by the
per-handle `try/except`) makes the handle contribute nothing; otherwise its
listings are filtered through the matcher in order, and the loop continues
with the remaining handles either way. -/
def scrape_greenhouse (fetch : String → FetchResult GhResponse) : List String → List Job
  | [] => []
  | handle :: rest =>
    (match fetch handle with
     | FetchResult.exn => []
     | FetchResult.resp status body =>
       if status ≠ 200 then []
       else
         match body with
         | none => []
         | some data => data.jobs.filterMap (ghProcessListing handle))
    ++ scrape_greenhouse fetch rest

/-- One element of a Lever postings response, with the fields
`scrape_lever` reads (lines 137-142).  `categories` is `none` when the
`categories` value is absent or falsy (line 140's truthiness test);
otherwise it carries the dict's (possibly missing) `location` entry. -/
structure LeverListing where
  text : Option String
  title : Option String
  hostedUrl : Option String
  applyUrl : Option String
  id : Option String
  categories : Option (Option String)
  datePosted : Option String
  createdAt : Option String
  description : Option String

/-- The per-listing body of `scrape_lever`'s inner loop (lines 137-153). -/
def leverProcessListing (handle : String) (j : LeverListing) : Option Job :=
  let title := pyOrS (pyOrO j.text j.title) ""
  let url_job := pyOrO j.hostedUrl (pyOrO j.applyUrl j.id)
  let location := match j.categories with
    | some loc => loc
    | none => none
  let posted := pyOrO j.datePosted j.createdAt
  let content := pyOrS (pyOrO j.description j.text) ""
  if matches_entry_level (some title) (some content) = true then
    -- `(content or "")[:280]` (line 152): `content` is already a defaulted
    -- string here, so the inner `or ""` is the identity
    some { signature := "lever|" ++ handle ++ "|" ++ title ++ "|" ++ pyStrOpt url_job,
           company := handle, title := title, location := location,
           url := url_job, posted := posted, snippet := pySliceTo content 280 }
  else none

/-- `scrape_lever(handles)` from lines 127-156 (the response body is a
top-level list of postings), with the same per-handle error isolation as
`scrape_greenhouse`. -/
def scrape_lever (fetch : String → FetchResult (List LeverListing)) : List String → List Job
  | [] => []
  | handle :: rest =>
    (match fetch handle with
     | FetchResult.exn => []
     | FetchResult.resp status body =>
       if status ≠ 200 then []
       else
         match body with
         | none => []
         | some data => data.filterMap (leverProcessListing handle))
    ++ scrape_lever fetch rest

/-- A handle's fetch failed: the request raised, the status was not 200, or
the body did not parse as JSON. -/
def handleFailed {α : Type} : FetchResult α → Bool
  | FetchResult.exn => true
  | FetchResult.resp status body => status != 200 || body.isNone

theorem ghProcessListing_sig {h : String} {j : GhListing} {job : Job}
    (hj : ghProcessListing h j = some job) :
    job.url = some (ghUrlJob h j) ∧ job.title = pyOrS j.title "" ∧
    job.signature = "greenhouse|" ++ h ++ "|" ++ pyOrS j.title "" ++ "|" ++ ghUrlJob h j := by
  simp only [ghProcessListing] at hj
  split at hj
  · injection hj with hj
    subst hj
    exact ⟨rfl, rfl, rfl⟩
  · exact Option.noConfusion hj

theorem leverProcessListing_sig {h : String} {j : LeverListing} {job : Job}
    (hj : leverProcessListing h j = some job) :
    job.url = pyOrO j.hostedUrl (pyOrO j.applyUrl j.id) ∧
    job.title = pyOrS (pyOrO j.text j.title) "" ∧
    job.signature = "lever|" ++ h ++ "|" ++ job.title ++ "|" ++ pyStrOpt job.url := by
  simp only [leverProcessListing] at hj
  split at hj
  · injection hj with hj
    subst hj
    exact ⟨rfl, rfl, rfl⟩
  · exact Option.noConfusion hj

/-- Claim C3: the signature of every job the Greenhouse or Lever adapter
produces is one string assembled from exactly the provider tag, the
company handle, the job's title and the job's URL, so it is a deterministic
function of those four parts: two processed listings yielding the same
title and URL yield the identical signature string, whatever their other
fields — in particular across repeated fetches of the same posting. -/
theorem signature_deterministic :
    (∀ (h : String) (j : GhListing) (job : Job), ghProcessListing h j = some job →
      job.url.isSome = true ∧
      job.signature = "greenhouse|" ++ h ++ "|" ++ job.title ++ "|" ++ pyStrOpt job.url) ∧
    (∀ (h : String) (j : LeverListing) (job : Job), leverProcessListing h j = some job →
      job.signature = "lever|" ++ h ++ "|" ++ job.title ++ "|" ++ pyStrOpt job.url) ∧
    (∀ (h : String) (j1 j2 : GhListing) (job1 job2 : Job),
      ghProcessListing h j1 = some job1 → ghProcessListing h j2 = some job2 →
      job1.title = job2.title → job1.url = job2.url →
      job1.signature = job2.signature) ∧
    (∀ (h : String) (j1 j2 : LeverListing) (job1 job2 : Job),
      leverProcessListing h j1 = some job1 → leverProcessListing h j2 = some job2 →
      job1.title = job2.title → job1.url = job2.url →
      job1.signature = job2.signature) := by
  refine ⟨?_, ?_, ?_, ?_⟩
  · intro h j job hj
    obtain ⟨hu, ht, hs⟩ := ghProcessListing_sig hj
    refine ⟨by simp [hu], ?_⟩
    rw [hs, ht, hu]
    rfl
  · intro h j job hj
    exact (leverProcessListing_sig hj).2.2
  · intro h j1 j2 job1 job2 h1 h2 ht hu
    obtain ⟨hu1, ht1, hs1⟩ := ghProcessListing_sig h1
    obtain ⟨hu2, ht2, hs2⟩ := ghProcessListing_sig h2
    rw [hs1, hs2, ← ht1, ← ht2, ht]
    have : ghUrlJob h j1 = ghUrlJob h j2 := by
      have := hu1 ▸ hu2 ▸ hu
      exact Option.some.inj this
    rw [this]
  · intro h j1 j2 job1 job2 h1 h2 ht hu
    obtain ⟨hu1, ht1, hs1⟩ := leverProcessListing_sig h1
    obtain ⟨hu2, ht2, hs2⟩ := leverProcessListing_sig h2
    rw [hs1, hs2, ht, hu]

/-- A sample Greenhouse listing whose title passes the keyword matcher. -/
def sampleGhListing : GhListing :=
  { title := some "Junior Engineer", absolute_url := some "https://jobs.example/1",
    url := none, id := none, location := GhLocation.direct none, content := none,
    updated_at := none, created_at := none, created := none }

/-- The job record `ghProcessListing` produces from `sampleGhListing`. -/
def sampleGhJob : Job :=
  { signature := "greenhouse|acme|Junior Engineer|https://jobs.example/1",
    company := "acme", title := "Junior Engineer", location := none,
    url := some "https://jobs.example/1", posted := none, snippet := "" }

/-- Concrete instance of the C3 signature composition. -/
theorem signature_deterministic_witness :
    sampleGhJob.url.isSome = true ∧
    sampleGhJob.signature =
      "greenhouse|" ++ "acme" ++ "|" ++ sampleGhJob.title ++ "|" ++ pyStrOpt sampleGhJob.url :=
  signature_deterministic.1 "acme" sampleGhListing sampleGhJob (by rfl)

theorem scrape_greenhouse_append (fetch : String → FetchResult GhResponse)
    (hs1 hs2 : List String) :
    scrape_greenhouse fetch (hs1 ++ hs2) =
      scrape_greenhouse fetch hs1 ++ scrape_greenhouse fetch hs2 := by
  induction hs1 with
  | nil => simp [scrape_greenhouse]
  | cons h rest ih => simp [scrape_greenhouse, ih]

theorem scrape_lever_append (fetch : String → FetchResult (List LeverListing))
    (hs1 hs2 : List String) :
    scrape_lever fetch (hs1 ++ hs2) =
      scrape_lever fetch hs1 ++ scrape_lever fetch hs2 := by
  induction hs1 with
  | nil => simp [scrape_lever]
  | cons h rest ih => simp [scrape_lever, ih]

theorem scrape_greenhouse_failed_single (fetch : String → FetchResult GhResponse)
    (h : String) (hf : handleFailed (fetch h) = true) :
    scrape_greenhouse fetch [h] = [] := by
  simp only [scrape_greenhouse, List.append_nil]
  cases hfetch : fetch h with
  | exn => rfl
  | resp status body =>
    rw [hfetch] at hf
    simp only [handleFailed] at hf
    by_cases hstat : status = 200
    · subst hstat
      have hb : body = none := by
        simp at hf
        exact hf
      subst hb
      simp
    · simp [hstat]

theorem scrape_lever_failed_single (fetch : String → FetchResult (List LeverListing))
    (h : String) (hf : handleFailed (fetch h) = true) :
    scrape_lever fetch [h] = [] := by
  simp only [scrape_lever, List.append_nil]
  cases hfetch : fetch h with
  | exn => rfl
  | resp status body =>
    rw [hfetch] at hf
    simp only [handleFailed] at hf
    by_cases hstat : status = 200
    · subst hstat
      have hb : body = none := by
        simp at hf
        exact hf
      subst hb
      simp
    · simp [hstat]

/-- Claim C7: for both the Greenhouse and the Lever adapter, a handle whose
fetch raises, returns a non-200 status, or fails to parse contributes no
jobs, and the adapter returns exactly the jobs of all the other handles of
the same list — one handle's failure never aborts the adapter. -/
theorem per_handle_isolation :
    (∀ (fetch : String → FetchResult GhResponse) (hs1 hs2 : List String) (h : String),
      handleFailed (fetch h) = true →
      scrape_greenhouse fetch (hs1 ++ h :: hs2) =
        scrape_greenhouse fetch hs1 ++ scrape_greenhouse fetch hs2) ∧
    (∀ (fetch : String → FetchResult (List LeverListing)) (hs1 hs2 : List String) (h : String),
      handleFailed (fetch h) = true →
      scrape_lever fetch (hs1 ++ h :: hs2) =
        scrape_lever fetch hs1 ++ scrape_lever fetch hs2) := by
  constructor
  · intro fetch hs1 hs2 h hf
    have e : hs1 ++ h :: hs2 = (hs1 ++ [h]) ++ hs2 := by simp
    rw [e, scrape_greenhouse_append, scrape_greenhouse_append,
        scrape_greenhouse_failed_single fetch h hf]
    simp
  · intro fetch hs1 hs2 h hf
    have e : hs1 ++ h :: hs2 = (hs1 ++ [h]) ++ hs2 := by simp
    rw [e, scrape_lever_append, scrape_lever_append,
        scrape_lever_failed_single fetch h hf]
    simp

/-- A fetch function for which the handle `"down"` errors out and every
other handle returns one matching listing. -/
def sampleGhFetch : String → FetchResult GhResponse :=
  fun h => if h = "down" then FetchResult.exn
           else FetchResult.resp 200 (some { jobs := [sampleGhListing] })

/-- Concrete instance of C7: dropping the failing handle `"down"` leaves
the jobs of the surrounding handles intact. -/
theorem per_handle_isolation_witness :
    scrape_greenhouse sampleGhFetch (["acme"] ++ "down" :: ["globex"]) =
      scrape_greenhouse sampleGhFetch ["acme"] ++ scrape_greenhouse sampleGhFetch ["globex"] :=
  per_handle_isolation.1 sampleGhFetch ["acme"] ["globex"] "down" (by rfl)

/-! ## The Discord embed builder and batching (the Notifier) -/

/-- A Discord embed message card as `build_embed` assembles it (lines
78-87); a field is (name, value, inline-flag), and the `Company` value is
the raw (possibly `None`) company string. -/
structure Embed where
  title : String
  description : String
  url : String
  timestamp : String
  fields : List (String × Option String × Bool)
deriving Repr, DecidableEq

/-- `build_embed(company, title, location, url, posted=None, snippet=None)`
from lines 70-88.  The two I/O-dependent inputs of the timestamp are
explicit parameters: `parseIso p` is the result of
`dateparser.parse(p).isoformat()` (`none` when parsing raised, which the
`try/except` of lines 72-77 turns into `ts = None`), and `nowIso` is
`datetime.utcnow().isoformat()`. -/
def build_embed (parseIso : String → Option String) (nowIso : String)
    (company title location url posted snippet : Option String) : Embed :=
  let ts : Option String := if pyTruthy posted then parseIso (pyStrOpt posted) else none
  { title := if pyTruthy title then pySliceTo (pyStrOpt title) 256 else "New Job"
    description := pyOrS snippet ""
    url := pyOrS url ""
    timestamp := pyOrS ts nowIso
    fields := [("Company", company, true),
               ("Location", some (pyOrS location "Remote/Unspecified"), true)] }

theorem string_eq_empty_of_data {s : String} (h : s.data = []) : s = "" := by
  cases s with
  | mk data =>
    have h2 : data = [] := h
    subst h2
    rfl

theorem string_ne_empty_of_data {s : String} (h : s.data ≠ []) : s ≠ "" := by
  intro he
  apply h
  rw [he]

theorem pySliceTo_length (s : String) (n : Nat) :
    (pySliceTo s n).length = min n s.length := by
  cases s with
  | mk data => simp [pySliceTo, String.length]

theorem pySliceTo_ne_empty {s : String} {n : Nat} (hs : s ≠ "") (hn : 0 < n) :
    pySliceTo s n ≠ "" := by
  apply string_ne_empty_of_data
  intro h
  have h2 : s.data.take n = [] := h
  rcases List.take_eq_nil_iff.mp h2 with h0 | h0
  · omega
  · exact hs (string_eq_empty_of_data h0)

/-- Claim C10: the `title` of every embed `build_embed` returns is a
non-empty string of at most 256 characters — the given title truncated to
its first 256 characters when that title is a non-empty string, and the
literal `"New Job"` when it is empty or missing. -/
theorem build_embed_title_bounded
    (parseIso : String → Option String) (nowIso : String)
    (company title location url posted snippet : Option String) :
    ((build_embed parseIso nowIso company title location url posted snippet).title ≠ "" ∧
     (build_embed parseIso nowIso company title location url posted snippet).title.length ≤ 256) ∧
    (pyTruthy title = true →
      (build_embed parseIso nowIso company title location url posted snippet).title =
        pySliceTo (pyStrOpt title) 256) ∧
    (pyTruthy title = false →
      (build_embed parseIso nowIso company title location url posted snippet).title = "New Job") := by
  have htitle : (build_embed parseIso nowIso company title location url posted snippet).title =
      if pyTruthy title then pySliceTo (pyStrOpt title) 256 else "New Job" := rfl
  by_cases ht : pyTruthy title = true
  · have hsome : ∃ t, title = some t ∧ t ≠ "" := by
      cases title with
      | none => exact absurd ht (by simp [pyTruthy])
      | some t =>
        refine ⟨t, rfl, ?_⟩
        simpa [pyTruthy] using ht
    obtain ⟨t, rfl, htne⟩ := hsome
    rw [htitle, if_pos ht]
    refine ⟨⟨?_, ?_⟩, fun _ => rfl, fun hf => absurd ht (by simp [hf])⟩
    · exact pySliceTo_ne_empty htne (by omega)
    · rw [pySliceTo_length]
      omega
  · have hf : pyTruthy title = false := by
      cases h : pyTruthy title
      · rfl
      · exact absurd h ht
    rw [htitle, if_neg ht]
    exact ⟨⟨by decide, by decide⟩, fun h => absurd h ht, fun _ => rfl⟩

/-- Concrete instance of the C10 title bound: a truthy title is truncated. -/
theorem build_embed_title_bounded_witness :
    (build_embed (fun _ => none) "now" (some "acme") (some "Junior Engineer")
      none none none none).title = pySliceTo (pyStrOpt (some "Junior Engineer")) 256 :=
  (build_embed_title_bounded (fun _ => none) "now" (some "acme")
    (some "Junior Engineer") none none none none).2.1 (by decide)

/-- The embed built for one collected job in `main`'s notification loop
(lines 268-275): each field of the job record is passed to `build_embed`. -/
def jobEmbed (parseIso : String → Option String) (nowIso : String) (job : Job) : Embed :=
  build_embed parseIso nowIso (some job.company) (some job.title) job.location job.url
    job.posted (some job.snippet)

/-- The batching loop of `main` (lines 266-286): embeds accumulate in job
order; as soon as the accumulator reaches `MAX_EMBEDS_PER_REQUEST` the
batch is delivered (one `send_discord_embeds` call) and the accumulator
reset, and a non-empty remainder is delivered after the loop (lines
284-286).  The result lists the delivered batches in order; delivery
failures are logged but do not change the control flow, so they do not
appear in the model. -/
def batchLoop (parseIso : String → Option String) (nowIso : String) :
    List Embed → List Job → List (List Embed)
  | embeds, [] => if embeds = [] then [] else [embeds]
  | embeds, job :: rest =>
    let embeds2 := embeds ++ [jobEmbed parseIso nowIso job]
    if MAX_EMBEDS_PER_REQUEST ≤ embeds2.length then
      embeds2 :: batchLoop parseIso nowIso [] rest
    else
      batchLoop parseIso nowIso embeds2 rest

theorem batchLoop_length (parseIso : String → Option String) (nowIso : String) :
    ∀ (jobs : List Job) (embeds : List Embed), embeds.length ≤ 5 →
      (batchLoop parseIso nowIso embeds jobs).length =
        (embeds.length + jobs.length + 5) / 6 := by
  intro jobs
  induction jobs with
  | nil =>
    intro embeds he
    simp only [batchLoop, List.length_nil]
    by_cases hemp : embeds = []
    · rw [if_pos hemp, hemp]
      simp
    · rw [if_neg hemp]
      have hne : embeds.length ≠ 0 := fun h => hemp (List.length_eq_zero.mp h)
      simp only [List.length_singleton]
      omega
  | cons job rest ih =>
    intro embeds he
    simp only [batchLoop]
    by_cases hfull :
        MAX_EMBEDS_PER_REQUEST ≤ (embeds ++ [jobEmbed parseIso nowIso job]).length
    · rw [if_pos hfull]
      have h1 := ih [] (by simp)
      simp only [List.length_nil] at h1
      simp only [List.length_cons, h1]
      simp only [List.length_append, List.length_singleton, List.length_cons,
        List.length_nil, MAX_EMBEDS_PER_REQUEST] at hfull
      omega
    · rw [if_neg hfull]
      have h2 : (embeds ++ [jobEmbed parseIso nowIso job]).length ≤ 5 := by
        simp only [List.length_append, List.length_singleton,
          MAX_EMBEDS_PER_REQUEST] at hfull ⊢
        omega
      rw [ih _ h2]
      simp only [List.length_append, List.length_singleton, List.length_cons,
        List.length_nil]
      omega

theorem batchLoop_sizes (parseIso : String → Option String) (nowIso : String) :
    ∀ (jobs : List Job) (embeds : List Embed), embeds.length ≤ 5 →
      ∀ b ∈ batchLoop parseIso nowIso embeds jobs, b.length ≤ 6 := by
  intro jobs
  induction jobs with
  | nil =>
    intro embeds he b hb
    simp only [batchLoop] at hb
    split at hb
    · simp at hb
    · simp only [List.mem_singleton] at hb
      subst hb
      omega
  | cons job rest ih =>
    intro embeds he b hb
    simp only [batchLoop] at hb
    split at hb
    next hfull =>
      rcases List.mem_cons.mp hb with rfl | hb2
      · simp only [List.length_append, List.length_singleton]
        omega
      · exact ih [] (by simp) b hb2
    next hfull =>
      refine ih (embeds ++ [jobEmbed parseIso nowIso job]) ?_ b hb
      simp only [List.length_append, List.length_singleton,
        MAX_EMBEDS_PER_REQUEST, not_le] at hfull ⊢
      omega

theorem batchLoop_join (parseIso : String → Option String) (nowIso : String) :
    ∀ (jobs : List Job) (embeds : List Embed),
      (batchLoop parseIso nowIso embeds jobs).flatten =
        embeds ++ jobs.map (jobEmbed parseIso nowIso) := by
  intro jobs
  induction jobs with
  | nil =>
    intro embeds
    simp only [batchLoop, List.map_nil, List.append_nil]
    by_cases hemp : embeds = []
    · rw [if_pos hemp, hemp]
      rfl
    · rw [if_neg hemp]
      simp
  | cons job rest ih =>
    intro embeds
    simp only [batchLoop, List.map_cons]
    split
    · rw [List.flatten_cons, ih []]
      simp
    · rw [ih]
      simp

/-- Claim C6: for any ordered list of n collected jobs, the batching loop
issues exactly ceil(n/6) delivery calls — `(n + 5) / 6` in Nat arithmetic —
each carrying at most `MAX_EMBEDS_PER_REQUEST = 6` embeds, and the batches
concatenate to the jobs' embeds in their original order; in particular 13
jobs produce exactly 3 calls of sizes 6, 6 and 1. -/
theorem notifier_batch_sizing :
    (∀ (parseIso : String → Option String) (nowIso : String) (jobs : List Job),
      (batchLoop parseIso nowIso [] jobs).length = (jobs.length + 5) / 6 ∧
      (∀ b ∈ batchLoop parseIso nowIso [] jobs, b.length ≤ 6) ∧
      (batchLoop parseIso nowIso [] jobs).flatten = jobs.map (jobEmbed parseIso nowIso)) ∧
    (batchLoop (fun _ => none) "now" [] (List.replicate 13 sampleGhJob)).map List.length
      = [6, 6, 1] := by
  constructor
  · intro parseIso nowIso jobs
    refine ⟨?_, ?_, ?_⟩
    · have h := batchLoop_length parseIso nowIso jobs [] (by simp)
      simpa using h
    · intro b hb
      exact batchLoop_sizes parseIso nowIso jobs [] (by simp) b hb
    · simpa using batchLoop_join parseIso nowIso jobs []
  · rfl

/-- Concrete instance of the C6 batch-size bound: the first batch delivered
for 13 identical jobs carries exactly 6 embeds, within the cap. -/
theorem notifier_batch_sizing_witness :
    (List.replicate 6 (jobEmbed (fun _ => none) "now" sampleGhJob)).length ≤ 6 := by
  have h := (notifier_batch_sizing.1 (fun _ => none) "now"
    (List.replicate 13 sampleGhJob)).2.1
  refine h _ ?_
  decide

/-! ## The dedup state loop and the `main` orchestration -/

/-- The dedup loop of `main` (lines 254-261), over the signature keys of
the `seen` dict: a job with a falsy (empty) signature is skipped; a job
whose signature is already a key of the state is skipped; otherwise the
signature is marked (added as a key — its value, a seen-at timestamp dict,
is never read back) and the job is collected as new.  Returns the final
state keys and the new jobs in order. -/
def dedupLoop (state : List String) : List Job → List String × List Job
  | [] => (state, [])
  | j :: rest =>
    if j.signature = "" then dedupLoop state rest
    else if j.signature ∈ state then dedupLoop state rest
    else
      let p := dedupLoop (j.signature :: state) rest
      (p.1, j :: p.2)

theorem dedupLoop_state_mono (jobs : List Job) :
    ∀ (state : List String) (s : String), s ∈ state → s ∈ (dedupLoop state jobs).1 := by
  induction jobs with
  | nil => intro state s hs; simpa [dedupLoop] using hs
  | cons j rest ih =>
    intro state s hs
    simp only [dedupLoop]
    split
    · exact ih state s hs
    · split
      · exact ih state s hs
      · exact ih _ s (List.mem_cons_of_mem _ hs)

theorem dedupLoop_marks (jobs : List Job) :
    ∀ (state : List String) (j : Job), j ∈ jobs → j.signature ≠ "" →
      j.signature ∈ (dedupLoop state jobs).1 := by
  induction jobs with
  | nil => intro state j hj; exact absurd hj (List.not_mem_nil j)
  | cons j0 rest ih =>
    intro state j hj hsig
    rcases List.mem_cons.mp hj with rfl | hj2
    · simp only [dedupLoop]
      split
      next h0 => exact absurd h0 hsig
      next h0 =>
        split
        next h1 => exact dedupLoop_state_mono rest state _ h1
        next h1 => exact dedupLoop_state_mono rest _ _ (List.mem_cons_self _ _)
    · simp only [dedupLoop]
      split
      · exact ih state j hj2 hsig
      · split
        · exact ih state j hj2 hsig
        · exact ih _ j hj2 hsig

theorem dedupLoop_new (jobs : List Job) :
    ∀ (state : List String) (j : Job), j ∈ (dedupLoop state jobs).2 →
      j ∈ jobs ∧ j.signature ≠ "" ∧ j.signature ∉ state := by
  induction jobs with
  | nil => intro state j hj; simp [dedupLoop] at hj
  | cons j0 rest ih =>
    intro state j hj
    simp only [dedupLoop] at hj
    split at hj
    next h0 =>
      obtain ⟨hm, hs, hn⟩ := ih state j hj
      exact ⟨List.mem_cons_of_mem _ hm, hs, hn⟩
    next h0 =>
      split at hj
      next h1 =>
        obtain ⟨hm, hs, hn⟩ := ih state j hj
        exact ⟨List.mem_cons_of_mem _ hm, hs, hn⟩
      next h1 =>
        rcases List.mem_cons.mp hj with rfl | hj2
        · exact ⟨List.mem_cons_self _ _, h0, h1⟩
        · obtain ⟨hm, hs, hn⟩ := ih _ j hj2
          refine ⟨List.mem_cons_of_mem _ hm, hs, ?_⟩
          intro hmem
          exact hn (List.mem_cons_of_mem _ hmem)

theorem dedupLoop_state_exact (jobs : List Job) :
    ∀ (state : List String) (s : String), s ∈ (dedupLoop state jobs).1 →
      s ∈ state ∨ ∃ j, j ∈ (dedupLoop state jobs).2 ∧ j.signature = s := by
  induction jobs with
  | nil => intro state s hs; left; simpa [dedupLoop] using hs
  | cons j0 rest ih =>
    intro state s hs
    by_cases h0 : j0.signature = ""
    · simp only [dedupLoop, if_pos h0] at hs ⊢
      exact ih state s hs
    · by_cases h1 : j0.signature ∈ state
      · simp only [dedupLoop, if_neg h0, if_pos h1] at hs ⊢
        exact ih state s hs
      · simp only [dedupLoop, if_neg h0, if_neg h1] at hs ⊢
        rcases ih (j0.signature :: state) s hs with hmem | ⟨j, hjm, hjs⟩
        · rcases List.mem_cons.mp hmem with rfl | hmem2
          · right; exact ⟨j0, List.mem_cons_self _ _, rfl⟩
          · left; exact hmem2
        · right; exact ⟨j, List.mem_cons_of_mem _ hjm, hjs⟩

theorem dedupLoop_none_new (jobs : List Job) :
    ∀ (state : List String), (∀ j ∈ jobs, j.signature = "" ∨ j.signature ∈ state) →
      (dedupLoop state jobs).2 = [] := by
  induction jobs with
  | nil => intro state _; simp [dedupLoop]
  | cons j0 rest ih =>
    intro state hall
    have hrest : ∀ j ∈ rest, j.signature = "" ∨ j.signature ∈ state :=
      fun j hj => hall j (List.mem_cons_of_mem _ hj)
    by_cases h0 : j0.signature = ""
    · simp only [dedupLoop, if_pos h0]
      exact ih state hrest
    · rcases hall j0 (List.mem_cons_self _ _) with h | h1
      · exact absurd h h0
      · simp only [dedupLoop, if_neg h0, if_pos h1]
        exact ih state hrest

/-- The observable outcome of one `main()` run: the jobs collected as new,
the delivered embed batches, the final in-memory state keys, the list of
successful state writes, and whether an exception escaped `main`. -/
structure MainResult where
  newJobs : List Job
  batches : List (List Embed)
  finalState : List String
  saves : List (List String)
  outcome : Except Unit Unit

/-- The `finally` tail of every run that reaches the `try` block (lines
291-293): `save_json` writes the current state exactly once; it is the one
unguarded statement, so a write error escapes `main`. -/
def finishRun (st : List String) (nj : List Job) (bs : List (List Embed))
    (saveErr : Bool) : MainResult :=
  { newJobs := nj, batches := bs, finalState := st,
    saves := if saveErr then [] else [st],
    outcome := if saveErr then Except.error () else Except.ok () }

/-- Python truthiness of a JSON value (`if not companies`, line 226):
`None`, `False`, `0`, `""`, `[]` and `{}` are falsy. -/
def pyJsonTruthy : Json → Bool
  | Json.null => false
  | Json.bool b => b
  | Json.num n => n != 0
  | Json.str s => s != ""
  | Json.arr items => !items.isEmpty
  | Json.obj fields => !fields.isEmpty

/-- Is the JSON value a dict?  `companies.get(...)` (lines 229-231) raises
`AttributeError` on anything else. -/
def isJsonDict : Json → Bool
  | Json.obj _ => true
  | _ => false

/-- The run reaches the `try` block: the loaded companies value passes both
the line-226 emptiness guard and the `.get` extraction of lines 229-231,
i.e. it is a non-empty dict. -/
def configOk (companies : Json) : Bool :=
  pyJsonTruthy companies && isJsonDict companies

/-- The body of `main()` from the state load to the `finally` (lines
234-293), for a run that reached it: scrape, dedup, notify in batches, and
save once.
* `state0` — the keys of the loaded state after the non-dict coercion of
  lines 234-236 (`load_json` catches its own errors and yields `{}`);
* `gres`/`lres`/`wres` — the results of the three `scrape_*` calls; an
  `error` models an exception propagating out of an adapter into `main`'s
  `except` handler (e.g. a config value that is not iterable raises at the
  adapter's `for` statement, outside the per-handle guard), which skips
  dedup and notification and leaves the state unchanged.  The later
  pipeline stages cannot raise: the dedup loop is pure dict work, and both
  `send_discord_embeds` (lines 61-68) and `build_embed` (lines 72-77)
  catch their own exceptions;
* `parseIso`/`nowIso` — the timestamp inputs of `build_embed`;
* `saveErr` — whether the final `save_json` raises. -/
def mainRunBody (state0 : List String) (gres lres wres : Except Unit (List Job))
    (parseIso : String → Option String) (nowIso : String)
    (saveErr : Bool) : MainResult :=
  match gres, lres, wres with
  | Except.ok gjobs, Except.ok ljobs, Except.ok wjobs =>
    let p := dedupLoop state0 (gjobs ++ ljobs ++ wjobs)
    finishRun p.1 p.2 (batchLoop parseIso nowIso [] p.2) saveErr
  | _, _, _ =>
    finishRun state0 [] [] saveErr

/-- `main()` from `src/checker.py` lines 223-293.  `companies` is the JSON
value loaded from `companies.json` (any JSON value; `load_json` catches its
own errors and yields `{}`).  A falsy value returns early at lines 226-228,
before the `try`/`finally`, so no state is loaded or saved.  A truthy value
then reaches the unguarded `companies.get` calls of lines 229-231, which
raise `AttributeError` when the value is not a dict — still before the
`try`/`finally`, so nothing is saved and the exception escapes `main`.
Only a truthy dict reaches `mainRunBody`.  In the two pre-`try` cases
`finalState` merely echoes `state0`, which was never loaded. -/
def mainRun (companies : Json) (state0 : List String)
    (gres lres wres : Except Unit (List Job))
    (parseIso : String → Option String) (nowIso : String)
    (saveErr : Bool) : MainResult :=
  if pyJsonTruthy companies = false then
    { newJobs := [], batches := [], finalState := state0, saves := [],
      outcome := Except.ok () }
  else
    match companies with
    | Json.obj _ => mainRunBody state0 gres lres wres parseIso nowIso saveErr
    | _ =>
      { newJobs := [], batches := [], finalState := state0, saves := [],
        outcome := Except.error () }

theorem mainRun_config_ok {companies : Json} (hc : configOk companies = true)
    (state0 : List String) (gres lres wres : Except Unit (List Job))
    (parseIso : String → Option String) (nowIso : String) (saveErr : Bool) :
    mainRun companies state0 gres lres wres parseIso nowIso saveErr =
      mainRunBody state0 gres lres wres parseIso nowIso saveErr := by
  cases companies <;> simp [configOk, pyJsonTruthy, isJsonDict] at hc
  simp [mainRun, pyJsonTruthy, hc]

/-- A well-formed, non-empty companies config value. -/
def sampleCompanies : Json :=
  Json.obj [("greenhouse", Json.arr [Json.str "acme"])]

/-- Claim C9 (counterexample): the claim says `main()` lets no exception
escape for every configuration, upstream response, and state-file outcome.
Two paths refute it: `save_json` in the `finally` block is unguarded, so on
a run past config loading whose final state write raises, the exception
escapes `main`; and the `companies.get` extraction of lines 229-231 runs
before the `try`, so a truthy non-dict `companies.json` such as `[1]`
passes the line-226 emptiness guard and raises an `AttributeError` that
escapes `main` with no save attempted.  Either way the process exits
non-zero. -/
theorem main_uncaught_escapes :
    (mainRun sampleCompanies [] (Except.ok []) (Except.ok []) (Except.ok [])
      (fun _ => none) "now" true).outcome = Except.error () ∧
    (mainRun (Json.arr [Json.num 1]) [] (Except.ok []) (Except.ok []) (Except.ok [])
      (fun _ => none) "now" false).outcome = Except.error () :=
  ⟨rfl, rfl⟩

/-- Claim C9 (amended): every scraping, deduplication or notification error
is caught and logged inside `main()`; exactly two exceptions can escape —
an `AttributeError` from the unguarded `companies.get` extraction when the
loaded companies value is truthy but not a dict (lines 229-231, sitting
before the `try`, so nothing is saved), and an error raised by the final
unguarded `save_json` (lines 291-292).  The run ends in an escaped
exception exactly in those two cases. -/
theorem main_exit_clean (companies : Json) (state0 : List String)
    (gres lres wres : Except Unit (List Job))
    (parseIso : String → Option String) (nowIso : String) (saveErr : Bool) :
    (mainRun companies state0 gres lres wres parseIso nowIso saveErr).outcome =
      (if pyJsonTruthy companies && !isJsonDict companies then Except.error ()
       else if pyJsonTruthy companies && saveErr then Except.error ()
       else Except.ok ()) := by
  cases companies with
  | obj fields =>
    by_cases hf : fields.isEmpty
    · simp [mainRun, pyJsonTruthy, isJsonDict, hf]
    · have hf2 : fields.isEmpty = false := by
        cases h : fields.isEmpty
        · rfl
        · exact absurd h hf
      cases saveErr
      · cases gres <;> cases lres <;> cases wres <;>
          simp [mainRun, mainRunBody, finishRun, pyJsonTruthy, isJsonDict, hf2]
      · cases gres <;> cases lres <;> cases wres <;>
          simp [mainRun, mainRunBody, finishRun, pyJsonTruthy, isJsonDict, hf2]
  | null => rfl
  | bool b => cases b <;> rfl
  | num n =>
    by_cases hn : n = 0
    · simp [mainRun, pyJsonTruthy, isJsonDict, hn]
    · simp [mainRun, pyJsonTruthy, isJsonDict, hn]
  | str s =>
    by_cases hs : s = ""
    · simp [mainRun, pyJsonTruthy, isJsonDict, hs]
    · simp [mainRun, pyJsonTruthy, isJsonDict, hs]
  | arr items =>
    by_cases hi : items.isEmpty
    · simp [mainRun, pyJsonTruthy, isJsonDict, hi]
    · have hi2 : items.isEmpty = false := by
        cases h : items.isEmpty
        · rfl
        · exact absurd h hi
      simp [mainRun, pyJsonTruthy, isJsonDict, hi2]

/-- Concrete instance of the amended C9 exit contract: with a well-formed
config and a working state file, a run whose scraping raised still ends
cleanly. -/
theorem main_exit_clean_witness :
    (mainRun sampleCompanies ["s"] (Except.error ()) (Except.ok []) (Except.ok [])
      (fun _ => none) "now" false).outcome = Except.ok () := by
  have h := main_exit_clean sampleCompanies ["s"] (Except.error ()) (Except.ok [])
    (Except.ok []) (fun _ => none) "now" false
  simpa [sampleCompanies, pyJsonTruthy, isJsonDict] using h

/-- Claim C2: on every run that gets past config loading (truthy companies)
and whose final write succeeds, the state is written back exactly once, at
the end — also when the scraping phase raised mid-pipeline — and the saved
mapping is the loaded mapping plus exactly the signatures of the jobs first
seen this run: no loaded key is removed, every discovered job's (non-empty)
signature is present, and every key is either a loaded key or the signature
of a collected new job, each of which was not in the loaded state. -/
theorem state_durability (companies : Json) (state0 : List String)
    (gres lres wres : Except Unit (List Job))
    (parseIso : String → Option String) (nowIso : String)
    (hc : configOk companies = true) :
    (mainRun companies state0 gres lres wres parseIso nowIso false).saves =
      [(mainRun companies state0 gres lres wres parseIso nowIso false).finalState] ∧
    (∀ s, s ∈ state0 →
      s ∈ (mainRun companies state0 gres lres wres parseIso nowIso false).finalState) ∧
    (∀ gjobs ljobs wjobs, gres = Except.ok gjobs → lres = Except.ok ljobs →
      wres = Except.ok wjobs →
      ∀ j, j ∈ gjobs ++ ljobs ++ wjobs → j.signature ≠ "" →
        j.signature ∈ (mainRun companies state0 gres lres wres parseIso nowIso false).finalState) ∧
    (∀ s, s ∈ (mainRun companies state0 gres lres wres parseIso nowIso false).finalState →
      s ∈ state0 ∨
        ∃ j, j ∈ (mainRun companies state0 gres lres wres parseIso nowIso false).newJobs ∧
          j.signature = s) ∧
    (∀ j, j ∈ (mainRun companies state0 gres lres wres parseIso nowIso false).newJobs →
      j.signature ∉ state0) := by
  simp only [mainRun_config_ok hc]
  cases gres with
  | error e =>
    refine ⟨rfl, ?_, ?_, ?_, ?_⟩
    · intro s hs; simpa [mainRunBody, finishRun] using hs
    · intro gjobs ljobs wjobs hg; exact absurd hg (by simp)
    · intro s hs; left; simpa [mainRunBody, finishRun] using hs
    · intro j hj; simp [mainRunBody, finishRun] at hj
  | ok gjobs =>
    cases lres with
    | error e =>
      refine ⟨rfl, ?_, ?_, ?_, ?_⟩
      · intro s hs; simpa [mainRunBody, finishRun] using hs
      · intro gjobs2 ljobs wjobs _ hl; exact absurd hl (by simp)
      · intro s hs; left; simpa [mainRunBody, finishRun] using hs
      · intro j hj; simp [mainRunBody, finishRun] at hj
    | ok ljobs =>
      cases wres with
      | error e =>
        refine ⟨rfl, ?_, ?_, ?_, ?_⟩
        · intro s hs; simpa [mainRunBody, finishRun] using hs
        · intro gjobs2 ljobs2 wjobs _ _ hw; exact absurd hw (by simp)
        · intro s hs; left; simpa [mainRunBody, finishRun] using hs
        · intro j hj; simp [mainRunBody, finishRun] at hj
      | ok wjobs =>
        refine ⟨rfl, ?_, ?_, ?_, ?_⟩
        · intro s hs
          simpa [mainRunBody, finishRun] using
            dedupLoop_state_mono (gjobs ++ ljobs ++ wjobs) state0 s hs
        · intro gjobs2 ljobs2 wjobs2 hg hl hw j hj hsig
          injection hg with hg
          injection hl with hl
          injection hw with hw
          subst hg; subst hl; subst hw
          simpa [mainRunBody, finishRun] using
            dedupLoop_marks (gjobs ++ ljobs ++ wjobs) state0 j hj hsig
        · intro s hs
          have hs2 : s ∈ (dedupLoop state0 (gjobs ++ ljobs ++ wjobs)).1 := by
            simpa [mainRunBody, finishRun] using hs
          rcases dedupLoop_state_exact (gjobs ++ ljobs ++ wjobs) state0 s hs2 with
            h | ⟨j, hjm, hjs⟩
          · exact Or.inl h
          · exact Or.inr ⟨j, by simpa [mainRunBody, finishRun] using hjm, hjs⟩
        · intro j hj
          have hj2 : j ∈ (dedupLoop state0 (gjobs ++ ljobs ++ wjobs)).2 := by
            simpa [mainRunBody, finishRun] using hj
          exact (dedupLoop_new (gjobs ++ ljobs ++ wjobs) state0 j hj2).2.2

/-- Concrete instance of C2: a loaded key survives the run's save. -/
theorem state_durability_witness :
    "seen-sig" ∈ (mainRun sampleCompanies ["seen-sig"] (Except.ok []) (Except.ok [])
      (Except.ok []) (fun _ => none) "now" false).finalState :=
  (state_durability sampleCompanies ["seen-sig"] (Except.ok []) (Except.ok [])
    (Except.ok []) (fun _ => none) "now" rfl).2.1 "seen-sig" (List.mem_cons_self _ _)

/-- Claim C1: with unchanged upstream data, a second run that loads the
state persisted by run 1 collects zero new jobs and delivers zero batches;
and every signature present in run 1's persisted state is treated as
already seen by any later run that loads that state — no job carrying it is
ever reported again, whatever that later run's upstream data. -/
theorem pipeline_idempotent (companies : Json) (state0 : List String)
    (g l w g2 l2 w2 : List Job)
    (p1 p2 p3 : String → Option String) (n1 n2 n3 : String)
    (hc : configOk companies = true) :
    ((mainRun companies (mainRun companies state0 (Except.ok g) (Except.ok l) (Except.ok w)
          p1 n1 false).finalState
        (Except.ok g) (Except.ok l) (Except.ok w) p2 n2 false).newJobs = [] ∧
     (mainRun companies (mainRun companies state0 (Except.ok g) (Except.ok l) (Except.ok w)
          p1 n1 false).finalState
        (Except.ok g) (Except.ok l) (Except.ok w) p2 n2 false).batches = []) ∧
    (∀ s, s ∈ (mainRun companies state0 (Except.ok g) (Except.ok l) (Except.ok w)
        p1 n1 false).finalState →
      ∀ j, j ∈ (mainRun companies (mainRun companies state0 (Except.ok g) (Except.ok l)
            (Except.ok w) p1 n1 false).finalState
          (Except.ok g2) (Except.ok l2) (Except.ok w2) p3 n3 false).newJobs →
        j.signature ≠ s) := by
  simp only [mainRun_config_ok hc]
  have hall : ∀ j ∈ g ++ l ++ w, j.signature = "" ∨
      j.signature ∈ (dedupLoop state0 (g ++ l ++ w)).1 := by
    intro j hj
    by_cases hs : j.signature = ""
    · exact Or.inl hs
    · exact Or.inr (dedupLoop_marks (g ++ l ++ w) state0 j hj hs)
  have hnew : (dedupLoop (dedupLoop state0 (g ++ l ++ w)).1 (g ++ l ++ w)).2 = [] :=
    dedupLoop_none_new (g ++ l ++ w) _ hall
  refine ⟨⟨?_, ?_⟩, ?_⟩
  · simpa [mainRunBody, finishRun] using hnew
  · have hnew2 : (dedupLoop (dedupLoop state0 (g ++ (l ++ w))).1 (g ++ (l ++ w))).2 = [] := by
      simpa [List.append_assoc] using hnew
    simp [mainRunBody, finishRun, hnew2, batchLoop]
  · intro s hs j hj
    have hs2 : s ∈ (dedupLoop state0 (g ++ l ++ w)).1 := by
      simpa [mainRunBody, finishRun] using hs
    have hj2 : j ∈ (dedupLoop (dedupLoop state0 (g ++ l ++ w)).1 (g2 ++ l2 ++ w2)).2 := by
      simpa [mainRunBody, finishRun] using hj
    intro heq
    exact (dedupLoop_new (g2 ++ l2 ++ w2) _ j hj2).2.2 (heq ▸ hs2)

/-- A second sample job with a signature distinct from `sampleGhJob`'s. -/
def sampleLeverJob : Job :=
  { signature := "lever|beta|Junior Dev|https://jobs.example/2", company := "beta",
    title := "Junior Dev", location := none, url := some "https://jobs.example/2",
    posted := none, snippet := "" }

/-- Concrete instance of C1: a job genuinely new in a later run cannot
carry a signature that run 1 already persisted. -/
theorem pipeline_idempotent_witness :
    sampleLeverJob.signature ≠ sampleGhJob.signature := by
  have h := (pipeline_idempotent sampleCompanies [] [sampleGhJob] [] []
    [sampleLeverJob] [] []
    (fun _ => none) (fun _ => none) (fun _ => none) "n" "n" "n" rfl).2
  refine h sampleGhJob.signature ?_ sampleLeverJob ?_
  · decide
  · decide

/-! ## The target-location matcher (absent from this source variant) -/

/-- Modelled from the spec: the exclusion tokens of `is_target_location`
(§4.1: "remote", "global", "anywhere"). -/
def EXCLUSION_TOKENS : List String := ["remote", "global", "anywhere"]

/-- Modelled from the spec: `is_target_location` does not appear in
`src/checker.py` — §4.1 says it is present in only two of the three
variants of this program, and this file is not one of them.  Per the spec's
words: false on an empty location; false when the (case-insensitively
compared) location contains an exclusion token, the exclusion check
short-circuiting first; otherwise true iff it contains an inclusion token
of a fixed regional keyword set.  The spec never enumerates the inclusion
set (only that `"Bangalore, India"` must pass), so it is a parameter
here. -/
def is_target_location (inclusions : List String) (location : String) : Bool :=
  if location = "" then false
  else if EXCLUSION_TOKENS.any (fun k => strContains (pyLower location) k) then false
  else inclusions.any (fun k => strContains (pyLower location) k)

/-- Claim C8 (spec-modelled): `is_target_location` returns false on the
empty location; false whenever the location contains an exclusion token —
also when it contains an inclusion token too, since the exclusion check
short-circuits first; and otherwise returns true iff the location contains
an inclusion token.  With a regional set containing `"india"`,
`"Remote - India"` is rejected and `"Bangalore, India"` accepted. -/
theorem target_location_semantics (inclusions : List String) (location : String) :
    (location = "" → is_target_location inclusions location = false) ∧
    (EXCLUSION_TOKENS.any (fun k => strContains (pyLower location) k) = true →
      is_target_location inclusions location = false) ∧
    (location ≠ "" →
      EXCLUSION_TOKENS.any (fun k => strContains (pyLower location) k) = false →
      is_target_location inclusions location =
        inclusions.any (fun k => strContains (pyLower location) k)) ∧
    (is_target_location ["india"] "Remote - India" = false ∧
     is_target_location ["india"] "Bangalore, India" = true ∧
     is_target_location ["india"] "" = false) := by
  refine ⟨?_, ?_, ?_, by decide, by decide, by decide⟩
  · intro h
    simp [is_target_location, h]
  · intro h
    simp [is_target_location, h]
  · intro h1 h2
    simp [is_target_location, h1, h2]

/-- Concrete instance of the C8 semantics: the empty location is rejected. -/
theorem target_location_semantics_witness :
    is_target_location ["india"] "" = false :=
  (target_location_semantics ["india"] "").1 rfl
